import Mathlib

/-!
Verification development for the chunked speech-synthesis pipeline in
`modules/text_to_speech_service.py`.

Python strings are embedded as `List Char`; byte sizes are computed on the
UTF-8 encoded form via `Char.utf8Size`, matching `len(s.encode('utf-8'))`.
Python float comparisons that the code performs on exact small rationals
(the 0.2 error threshold, the 0.1 s duration bound) are embedded as exact
rational/integer comparisons; for the chunk counts arising here the float
rounding can never flip those comparisons.
-/

/-- Code points for which Python `str.isspace()` holds and which `str.strip()`
and `str.split()` treat as whitespace. -/
def pyWhitespaceCodes : List Nat :=
  [0x09, 0x0A, 0x0B, 0x0C, 0x0D, 0x1C, 0x1D, 0x1E, 0x1F, 0x20,
   0x85, 0xA0, 0x1680, 0x2000, 0x2001, 0x2002, 0x2003, 0x2004, 0x2005,
   0x2006, 0x2007, 0x2008, 0x2009, 0x200A, 0x2028, 0x2029, 0x202F, 0x205F, 0x3000]

/-- Python whitespace test on a single character. -/
def pyIsSpace (c : Char) : Bool := pyWhitespaceCodes.contains c.toNat

/-- UTF-8 encoded byte length of a string, Python `len(s.encode('utf-8'))`. -/
def utf8Len (s : List Char) : Nat := (s.map Char.utf8Size).sum

/-- Python `s.strip()`: drop leading and trailing whitespace. -/
def pyStrip (s : List Char) : List Char :=
  ((s.dropWhile pyIsSpace).reverse.dropWhile pyIsSpace).reverse

/-- Helper for Python `s.split()`: accumulate the current word (reversed) while
scanning; whitespace runs separate words and empty words are dropped. -/
def wordsAux : List Char → List Char → List (List Char)
  | [], acc => if acc = [] then [] else [acc.reverse]
  | c :: rest, acc =>
    if pyIsSpace c then
      if acc = [] then wordsAux rest [] else acc.reverse :: wordsAux rest []
    else wordsAux rest (c :: acc)

/-- Python `s.split()` (no separator): split on whitespace runs. -/
def pyWords (s : List Char) : List (List Char) := wordsAux s []

/-- Python `s.split('. ')`: split on each non-overlapping occurrence of the
two-character separator, scanning left to right. -/
def splitDotSpace : List Char → List (List Char)
  | [] => [[]]
  | [c] => [[c]]
  | c1 :: c2 :: rest =>
    if c1 = '.' ∧ c2 = ' ' then [] :: splitDotSpace rest
    else
      match splitDotSpace (c2 :: rest) with
      | [] => [[c1]]
      | r :: rs => (c1 :: r) :: rs

/-- Python `text.replace('\n', ' ')`. -/
def pyReplaceNl (s : List Char) : List Char :=
  s.map fun c => if c = '\n' then ' ' else c

/-- Word-level greedy fallback of `TextToSpeech._chunk_text` (the inner
`for word in words` loop): returns the chunks appended by the loop in order
together with the final `temp_chunk`. -/
def chunkWords (maxBytes : Nat) : List (List Char) → List Char →
    List (List Char) × List Char
  | [], temp => ([], temp)
  | w :: ws, temp =>
    if utf8Len (temp ++ ' ' :: w) > maxBytes then
      if temp = [] then chunkWords maxBytes ws w
      else
        let r := chunkWords maxBytes ws w
        (pyStrip temp :: r.1, r.2)
    else chunkWords maxBytes ws (if temp = [] then w else temp ++ ' ' :: w)

/-- Sentence-level loop of `TextToSpeech._chunk_text` (the outer
`for sentence in sentences` loop): returns the chunks appended in order
together with the final `current_chunk`.  `lastS` is `sentences[-1]`;
a sentence equal to it (compared by value, as in the source) does not get
the `'. '` separator re-appended. -/
def chunkSentences (maxBytes : Nat) (lastS : List Char) :
    List (List Char) → List Char → List (List Char) × List Char
  | [], current => ([], current)
  | s :: ss, current =>
    let sentence := if s = lastS then s else s ++ ('.' :: [' '])
    let potential := current ++ sentence
    if utf8Len potential > maxBytes then
      if current = [] then
        let r1 := chunkWords maxBytes (pyWords sentence) []
        let r2 := chunkSentences maxBytes lastS ss r1.2
        (r1.1 ++ r2.1, r2.2)
      else
        let r := chunkSentences maxBytes lastS ss sentence
        (pyStrip current :: r.1, r.2)
    else chunkSentences maxBytes lastS ss potential

/-- `TextToSpeech._chunk_text(text, max_bytes)`: empty or whitespace-only text
yields no chunks; otherwise split into sentences on `'. '` (after replacing
newlines by spaces) and run the greedy accumulation loops. -/
def chunk_text (text : List Char) (maxBytes : Nat) : List (List Char) :=
  if pyStrip text = [] then []
  else
    let sentences := splitDotSpace (pyReplaceNl text)
    let r := chunkSentences maxBytes (sentences.getLastD []) sentences []
    if r.2 = [] then r.1 else r.1 ++ [pyStrip r.2]

/-- Whether a string contains the sentence separator `'. '` as a substring:
a chunk with `hasSep = false` is a fragment of a single sentence (in
particular any single word). -/
def hasSep : List Char → Bool
  | [] => false
  | [_] => false
  | c1 :: c2 :: rest => (c1 == '.' && c2 == ' ') || hasSep (c2 :: rest)

/-! ## Orchestration (`process_large_text`, lines 298-329)

The loop over chunks is embedded with the per-chunk success of
`_process_chunk` abstracted as a `Bool` (the network and storage effects are
outside the program text being verified).  The internal `raise` sites are
modelled as outcome constructors; the enclosing `except` turns any of them
into a `None` return. -/

/-- Internal outcome of the orchestration loop before the blanket
`except` handler: proceed to combining with the collected chunk files,
abort because the error threshold was exceeded, or fail because no chunk
produced valid audio. -/
inductive OrchOutcome
  | combined (files : List Nat)
  | thresholdError (failed total : Nat)
  | noValidChunks
  deriving DecidableEq, Repr

/-- The Python comparison `failed_chunks / total_chunks > self.ERROR_THRESHOLD`
with `ERROR_THRESHOLD = 0.2`, embedded exactly: the float comparison agrees
with the exact rational comparison `failed / total > 1/5` for all chunk
counts reachable here. -/
def errorThresholdHit (failed total : Nat) : Bool := 5 * failed > total

/-- The `for idx, chunk in enumerate(chunks, 1)` loop of `process_large_text`:
`total` is `len(chunks)` (fixed before the loop), `files` the accumulated
`chunk_files` (by 1-based index), `failed` the `failed_chunks` counter. -/
def orchLoop (total : Nat) : List Bool → Nat → List Nat → Nat → OrchOutcome
  | [], _, files, _ =>
    if files = [] then .noValidChunks else .combined files
  | ok :: rest, idx, files, failed =>
    if ok then orchLoop total rest (idx + 1) (files ++ [idx]) failed
    else
      if errorThresholdHit (failed + 1) total then .thresholdError (failed + 1) total
      else orchLoop total rest (idx + 1) files (failed + 1)

/-- `process_large_text` at the level of per-chunk outcomes: run the loop over
the given success flags. -/
def process_large_text (outcomes : List Bool) : OrchOutcome :=
  orchLoop outcomes.length outcomes 1 [] 0

/-- `process_large_text` applied to actual text: chunk it at the default
5000-byte bound and run the loop, with `chunkOk i` the success of
`_process_chunk` on the `i`-th chunk (1-based). -/
def process_large_text_of (text : List Char) (chunkOk : Nat → Bool) : OrchOutcome :=
  let chunks := chunk_text text 5000
  orchLoop chunks.length ((List.range chunks.length).map fun i => chunkOk (i + 1)) 1 [] 0

/-- Discriminator used to state counterexamples about the absence of a
threshold abort. -/
def isThresholdError : OrchOutcome → Bool
  | .thresholdError _ _ => true
  | _ => false

/-! ## Ephemeral chunk-store lifecycle (`temporary_directory`, lines 426-442,
and the cleanup in `_combine_audio_files`, lines 370-382)

Blobs under `tmp_audio_files/{temp_prefix}/chunk_{idx}.wav` are modelled as
pairs `(job, idx)` where `job` stands for the time-based temp prefix of the
run.  The `with self.temporary_directory()` block guarantees that
`_cleanup_temp_files(prefix)` runs on every exit path (generator context
manager with `try .. finally`). -/

/-- `_cleanup_temp_files(prefix)`: delete every blob stored under the job's
temp namespace. -/
def cleanup_temp_files (job : Nat) (store : List (Nat × Nat)) : List (Nat × Nat) :=
  store.filter fun b => b.1 ≠ job

/-- The orchestration loop together with its chunk-store writes: a successful
`_process_chunk` uploads the blob `(job, idx)` before the loop continues. -/
def orchLoopSt (job total : Nat) :
    List Bool → Nat → List Nat → Nat → List (Nat × Nat) → OrchOutcome × List (Nat × Nat)
  | [], _, files, _, store =>
    (if files = [] then .noValidChunks else .combined files, store)
  | ok :: rest, idx, files, failed, store =>
    if ok then orchLoopSt job total rest (idx + 1) (files ++ [idx]) failed (store ++ [(job, idx)])
    else
      if errorThresholdHit (failed + 1) total then (.thresholdError (failed + 1) total, store)
      else orchLoopSt job total rest (idx + 1) files (failed + 1) store

/-- `process_large_text` with its storage effects: the loop body runs inside
`with self.temporary_directory() as temp_prefix`, whose `finally` clause
deletes the job's namespace on every exit path; on the combining path
`_combine_audio_files` additionally cleans the same namespace in its own
`finally` clause, and `combineOk` abstracts whether combining succeeds
(its failure raises, which the outer `except` converts to `None`). -/
def process_large_text_st (job : Nat) (outcomes : List Bool) (combineOk : Bool)
    (store : List (Nat × Nat)) : Option (List Nat) × List (Nat × Nat) :=
  let r := orchLoopSt job outcomes.length outcomes 1 [] 0 store
  match r.1 with
  | .combined files =>
    let store2 := cleanup_temp_files job r.2
    ((if combineOk then some files else none), cleanup_temp_files job store2)
  | .thresholdError _ _ => (none, cleanup_temp_files job r.2)
  | .noValidChunks => (none, cleanup_temp_files job r.2)

/-! ## Entry-point routing (`text_to_speech`, lines 570-577) -/

/-- Which synthesis path the entry point takes for an article's content. -/
inductive ConversionPath
  | singleChunk
  | multiChunk
  deriving DecidableEq, Repr

/-- The routing decision of `text_to_speech`: `content_length <= 5000` uses the
single direct `convert_text_to_speech` call, anything larger goes through
`process_large_text`. -/
def tts_route (content : List Char) : ConversionPath :=
  if utf8Len content ≤ 5000 then .singleChunk else .multiChunk

/-- A 12000-byte article made of three sentences (two of 4000 bytes and one
of 3996, each a single 1000- or 999-character word of four-byte characters,
separated by `'. '`), used to instantiate the multi-chunk path at the
default bound. -/
def sampleLongArticle : List Char :=
  List.replicate 1000 '𠀀' ++
    '.' :: ' ' :: (List.replicate 1000 '𠀀' ++
      '.' :: ' ' :: List.replicate 999 '𠀀')

/-- A 12000-byte article consisting of one single 3000-character word of
four-byte characters: no sentence or word boundary exists to split at. -/
def megaWordArticle : List Char := List.replicate 3000 '𠀀'

/-! ## `convert_text_to_speech` with its `tenacity` retry decorator
(lines 191-264) -/

/-- Exception classes observable at the retry decorator. -/
inductive TtsError
  | deadlineExceeded
  | serviceUnavailable
  | internalServerError
  | connectionError
  | socketTimeout
  | timeoutError
  | valueError
  | googleApiError
  deriving DecidableEq, Repr

/-- The decorator's `retry_if_exception_type` tuple: exactly the transient
kinds are retried. -/
def isRetryableError : TtsError → Bool
  | .deadlineExceeded => true
  | .serviceUnavailable => true
  | .internalServerError => true
  | .connectionError => true
  | .socketTimeout => true
  | .timeoutError => true
  | _ => false

/-- Behaviour of one underlying synthesis attempt (`_make_tts_request` plus
response validation), abstracted per attempt number: the request may raise,
return empty content, or return audio bytes that pass or fail
`_validate_audio_segment`. -/
inductive SynthOutcome
  | fail (e : TtsError)
  | empty
  | audioData (content : List Nat) (valid : Bool)

/-- One undecorated execution of `convert_text_to_speech` (lines 210-264):
non-string input returns `None`; input over 5000 UTF-8 bytes raises
`ValueError`; otherwise the outcome of the synthesis attempt decides the
result (empty content or failed validation return `None`, API errors
propagate). -/
inductive PyInput
  | str (s : List Char)
  | nonStr

def convert_attempt (input : PyInput) (synth : Nat → SynthOutcome) (attempt : Nat) :
    Except TtsError (Option (List Nat)) :=
  match input with
  | .nonStr => .ok none
  | .str s =>
    if 5000 < utf8Len s then .error .valueError
    else
      match synth attempt with
      | .fail e => .error e
      | .empty => .ok none
      | .audioData content valid => if valid then .ok (some content) else .ok none

/-- Semantics of the `tenacity` `retry` decorator with
`stop_after_attempt(3)` and `reraise=True`: run the body; on an exception in
the retryable tuple retry (while attempts remain), otherwise or after the
final attempt re-raise the exception unmodified.  Returns the result
together with the number of attempts made.  `fuel` is the number of retries
still allowed (2 at entry, for 3 attempts total). -/
def tenacityRun (body : Nat → Except TtsError (Option (List Nat))) :
    Nat → Nat → Except TtsError (Option (List Nat)) × Nat
  | fuel, attempt =>
    match body attempt with
    | .ok a => (.ok a, attempt)
    | .error e =>
      match fuel with
      | 0 => (.error e, attempt)
      | f + 1 =>
        if isRetryableError e then tenacityRun body f (attempt + 1)
        else (.error e, attempt)

/-- The decorated `convert_text_to_speech`: up to 3 attempts of the body. -/
def convert_text_to_speech (input : PyInput) (synth : Nat → SynthOutcome) :
    Except TtsError (Option (List Nat)) × Nat :=
  tenacityRun (convert_attempt input synth) 2 1

/-- The decorator's `wait_exponential(multiplier=1, min=4, max=10)` delay (in
seconds) before the retry following attempt `attemptNumber`:
`multiplier * 2 ** attempt_number` clamped below by `min` and above by
`max`. -/
def wait_exponential (multiplier minW maxW attemptNumber : Nat) : Nat :=
  max (max 0 minW) (min (multiplier * 2 ^ attemptNumber) maxW)

/-! ## `_combine_audio_files` (lines 331-364)

A stored chunk audio file is modelled by its wave parameters and raw frame
bytes; a `none` entry is a blob that fails the `blob.exists()` check and is
skipped by `continue` (the `enumerate` index still advances).  The `wave`
writer raises if frames are written before the output parameters are set. -/

structure WavFile where
  nchannels : Nat
  sampwidth : Nat
  framerate : Nat
  frames : List Nat
  deriving DecidableEq, Repr

structure WaveWriter where
  params : Option (Nat × Nat × Nat)
  frames : List Nat
  deriving DecidableEq, Repr

/-- The `for i, file_path in enumerate(file_paths)` loop: the first entry
(`i == 0`) sets the output channel count, sample width and frame rate; every
existing entry's frames are appended in order. -/
def combineLoop : List (Option WavFile) → Nat → WaveWriter → Except Unit WaveWriter
  | [], _, w => .ok w
  | none :: rest, i, w => combineLoop rest (i + 1) w
  | some f :: rest, i, w =>
    let w1 := if i = 0 then { w with params := some (f.nchannels, f.sampwidth, f.framerate) } else w
    match w1.params with
    | none => .error ()
    | some _ => combineLoop rest (i + 1) { w1 with frames := w1.frames ++ f.frames }

/-- `_combine_audio_files`: run the loop from an empty writer; any `wave`
error (including closing a writer whose parameters were never set) is caught
and turned into `None`. -/
def _combine_audio_files (files : List (Option WavFile)) : Option WavFile :=
  match combineLoop files 0 ⟨none, []⟩ with
  | .error _ => none
  | .ok w =>
    match w.params with
    | none => none
    | some p => some ⟨p.1, p.2.1, p.2.2, w.frames⟩

/-! ## `_validate_audio_segment` (lines 129-160) -/

/-- The properties of a decoded `AudioSegment` that the validator inspects.
`duration_seconds` and `max_dBFS` are floats in the source, embedded as
rationals (a silent segment's `-inf` peak is any negative value here; only
the comparison with 0 is observed). -/
structure AudioSegmentProps where
  duration_seconds : ℚ
  frame_rate : Nat
  channels : Nat
  max_dBFS : ℚ

/-- `_validate_audio_segment`: all four quality rules must hold; any
violation returns `False` (never raises). `MIN_AUDIO_DURATION = 0.1`,
`MIN_FRAME_RATE = 16000`, `MAX_FRAME_RATE = 48000`. -/
def _validate_audio_segment (s : AudioSegmentProps) : Bool :=
  if s.duration_seconds < 1 / 10 then false
  else if ¬(16000 ≤ s.frame_rate ∧ s.frame_rate ≤ 48000) then false
  else if ¬(s.channels = 1 ∨ s.channels = 2) then false
  else if 0 < s.max_dBFS then false
  else true

/-! ## Byte-length lemmas -/

theorem utf8Len_nil : utf8Len [] = 0 := rfl

theorem utf8Len_cons (c : Char) (l : List Char) :
    utf8Len (c :: l) = c.utf8Size + utf8Len l := by
  simp [utf8Len]

theorem utf8Len_append (a b : List Char) :
    utf8Len (a ++ b) = utf8Len a + utf8Len b := by
  simp [utf8Len]

theorem utf8Len_reverse (l : List Char) : utf8Len l.reverse = utf8Len l := by
  simp [utf8Len, List.sum_reverse]

theorem utf8Len_replicate (n : Nat) (c : Char) :
    utf8Len (List.replicate n c) = n * c.utf8Size := by
  induction n with
  | zero => simp [utf8Len]
  | succ n ih =>
    rw [List.replicate_succ, utf8Len_cons, ih, Nat.succ_mul, Nat.add_comm]

theorem utf8Len_dropWhile_le (p : Char → Bool) (l : List Char) :
    utf8Len (l.dropWhile p) ≤ utf8Len l := by
  induction l with
  | nil => exact Nat.le_refl _
  | cons c t ih =>
    rw [List.dropWhile_cons]
    split
    · exact Nat.le_trans ih (by rw [utf8Len_cons]; exact Nat.le_add_left _ _)
    · exact Nat.le_refl _

theorem utf8Len_pyStrip_le (l : List Char) : utf8Len (pyStrip l) ≤ utf8Len l := by
  unfold pyStrip
  calc utf8Len ((l.dropWhile pyIsSpace).reverse.dropWhile pyIsSpace).reverse
      = utf8Len ((l.dropWhile pyIsSpace).reverse.dropWhile pyIsSpace) := utf8Len_reverse _
    _ ≤ utf8Len (l.dropWhile pyIsSpace).reverse := utf8Len_dropWhile_le _ _
    _ = utf8Len (l.dropWhile pyIsSpace) := utf8Len_reverse _
    _ ≤ utf8Len l := utf8Len_dropWhile_le _ _

/-! ## dropWhile and strip structure -/

theorem exists_append_dropWhile (p : Char → Bool) (l : List Char) :
    ∃ t, l = t ++ l.dropWhile p := by
  induction l with
  | nil => exact ⟨[], rfl⟩
  | cons c r ih =>
    rw [List.dropWhile_cons]
    split
    · obtain ⟨t, ht⟩ := ih
      exact ⟨c :: t, by rw [List.cons_append, ← ht]⟩
    · exact ⟨[], rfl⟩

theorem mem_of_mem_dropWhile {a : Char} {p : Char → Bool} {l : List Char}
    (h : a ∈ l.dropWhile p) : a ∈ l := by
  obtain ⟨t, ht⟩ := exists_append_dropWhile p l
  rw [ht]
  exact List.mem_append_right _ h

theorem mem_pyStrip {a : Char} {l : List Char} (h : a ∈ pyStrip l) : a ∈ l := by
  unfold pyStrip at h
  rw [List.mem_reverse] at h
  have h1 := mem_of_mem_dropWhile h
  rw [List.mem_reverse] at h1
  exact mem_of_mem_dropWhile h1

theorem pyIsSpace_space : pyIsSpace ' ' = true := rfl

theorem pyIsSpace_dot : pyIsSpace '.' = false := rfl

/-! ## Sentence-separator occurrence -/

theorem hasSep_cons_of {l : List Char} (c : Char) (h : hasSep l = true) :
    hasSep (c :: l) = true := by
  cases l with
  | nil => exact Bool.noConfusion h
  | cons d t =>
    rw [show hasSep (c :: d :: t) = ((c == '.' && d == ' ') || hasSep (d :: t)) from rfl, h]
    simp

theorem hasSep_append_left {a : List Char} (b : List Char) (h : hasSep a = true) :
    hasSep (a ++ b) = true := by
  induction a with
  | nil => exact Bool.noConfusion h
  | cons c t ih =>
    cases t with
    | nil => exact Bool.noConfusion h
    | cons d r =>
      rw [show hasSep (c :: d :: r) = ((c == '.' && d == ' ') || hasSep (d :: r)) from rfl,
        Bool.or_eq_true] at h
      rcases h with h1 | h2
      · rw [List.cons_append, List.cons_append,
          show hasSep (c :: d :: (r ++ b)) = ((c == '.' && d == ' ') || hasSep (d :: (r ++ b))) from rfl,
          h1]
        simp
      · rw [List.cons_append]
        exact hasSep_cons_of c (ih h2)

theorem hasSep_dropWhile {p : Char → Bool} {l : List Char}
    (h : hasSep (l.dropWhile p) = true) : hasSep l = true := by
  induction l with
  | nil => simp at h; exact Bool.noConfusion h
  | cons c t ih =>
    rw [List.dropWhile_cons] at h
    split at h
    · exact hasSep_cons_of c (ih h)
    · exact h

theorem hasSep_pyStrip {l : List Char} (h : hasSep (pyStrip l) = true) :
    hasSep l = true := by
  unfold pyStrip at h
  obtain ⟨t, ht⟩ := exists_append_dropWhile pyIsSpace (l.dropWhile pyIsSpace).reverse
  have hsplit : l.dropWhile pyIsSpace
      = ((l.dropWhile pyIsSpace).reverse.dropWhile pyIsSpace).reverse ++ t.reverse := by
    have h2 := congrArg List.reverse ht
    simpa [List.reverse_append] using h2
  have h3 : hasSep (l.dropWhile pyIsSpace) = true := by
    rw [hsplit]
    exact hasSep_append_left _ h
  exact hasSep_dropWhile h3

theorem hasSep_pyStrip_false {l : List Char} (h : hasSep l = false) :
    hasSep (pyStrip l) = false := by
  cases hh : hasSep (pyStrip l)
  · rfl
  · rw [hasSep_pyStrip hh] at h
    exact Bool.noConfusion h

theorem space_mem_of_hasSep {l : List Char} (h : hasSep l = true) : ' ' ∈ l := by
  induction l with
  | nil => exact Bool.noConfusion h
  | cons c t ih =>
    cases t with
    | nil => exact Bool.noConfusion h
    | cons d r =>
      rw [show hasSep (c :: d :: r) = ((c == '.' && d == ' ') || hasSep (d :: r)) from rfl,
        Bool.or_eq_true, Bool.and_eq_true] at h
      rcases h with ⟨-, h2⟩ | h2
      · have hd : d = ' ' := by simpa using h2
        rw [hd]
        exact List.mem_cons_of_mem _ (List.mem_cons_self _ _)
      · exact List.mem_cons_of_mem _ (ih h2)

theorem hasSep_append_dot {l : List Char} (h : hasSep (l ++ ['.']) = true) :
    hasSep l = true := by
  induction l with
  | nil =>
    rw [List.nil_append] at h
    exact Bool.noConfusion h
  | cons c t ih =>
    cases t with
    | nil =>
      rw [show ([c] ++ ['.'] : List Char) = c :: '.' :: [] from rfl,
        show hasSep (c :: '.' :: []) = ((c == '.' && '.' == ' ') || hasSep ['.']) from rfl,
        show (('.' : Char) == ' ') = false from rfl,
        show hasSep ['.'] = false from rfl] at h
      simp at h
    | cons d r =>
      rw [List.cons_append, List.cons_append,
        show hasSep (c :: d :: (r ++ ['.'])) = ((c == '.' && d == ' ') || hasSep (d :: (r ++ ['.']))) from rfl,
        Bool.or_eq_true] at h
      rcases h with h1 | h2
      · rw [show hasSep (c :: d :: r) = ((c == '.' && d == ' ') || hasSep (d :: r)) from rfl, h1]
        simp
      · exact hasSep_cons_of c (ih h2)

theorem hasSep_eq_false_of_no_space {l : List Char}
    (h : ∀ c ∈ l, pyIsSpace c = false) : hasSep l = false := by
  cases hh : hasSep l
  · rfl
  · have h1 := h ' ' (space_mem_of_hasSep hh)
    rw [pyIsSpace_space] at h1
    exact Bool.noConfusion h1

theorem noSpace_pyStrip_hasSep {t : List Char}
    (h : ∀ c ∈ t, pyIsSpace c = false) : hasSep (pyStrip t) = false :=
  hasSep_eq_false_of_no_space fun c hc => h c (mem_pyStrip hc)

/-! ## Structure of the sentence split -/

theorem splitDotSpace_ne_nil (l : List Char) : splitDotSpace l ≠ [] := by
  match l with
  | [] => simp [splitDotSpace]
  | [c] => simp [splitDotSpace]
  | c1 :: c2 :: rest =>
    rw [splitDotSpace]
    split
    · simp
    · split <;> simp

theorem splitDotSpace_head {c : Char} {t r : List Char} {rs : List (List Char)}
    (h : splitDotSpace (c :: t) = r :: rs) : r = [] ∨ ∃ r2, r = c :: r2 := by
  match t with
  | [] =>
    rw [show splitDotSpace [c] = [[c]] from rfl] at h
    injection h with h1 _
    exact Or.inr ⟨[], h1.symm⟩
  | d :: t2 =>
    rw [splitDotSpace] at h
    split at h
    · injection h with h1 _
      exact Or.inl h1.symm
    · split at h
      · injection h with h1 _
        exact Or.inr ⟨[], h1.symm⟩
      · injection h with h1 _
        exact Or.inr ⟨_, h1.symm⟩

theorem hasSep_splitDotSpace (l : List Char) : ∀ x ∈ splitDotSpace l, hasSep x = false := by
  induction l using splitDotSpace.induct with
  | case1 =>
    intro x hx
    rw [show splitDotSpace [] = [[]] from rfl] at hx
    simp at hx
    rw [hx]
    rfl
  | case2 c =>
    intro x hx
    rw [show splitDotSpace [c] = [[c]] from rfl] at hx
    simp at hx
    rw [hx]
    rfl
  | case3 c1 c2 rest hcond ih =>
    intro x hx
    rw [splitDotSpace, if_pos hcond] at hx
    rcases List.mem_cons.mp hx with rfl | hx2
    · rfl
    · exact ih x hx2
  | case4 c1 c2 rest hcond hnil ih =>
    exact absurd hnil (splitDotSpace_ne_nil _)
  | case5 c1 c2 rest hcond r rs hin ih =>
    intro x hx
    rw [splitDotSpace, if_neg hcond, hin] at hx
    rcases List.mem_cons.mp hx with rfl | hx2
    · have hr : hasSep r = false := ih r (by rw [hin]; exact List.mem_cons_self _ _)
      rcases r with _ | ⟨e, r2⟩
      · rfl
      · rcases splitDotSpace_head hin with he | ⟨r3, he⟩
        · exact absurd he (by simp)
        · injection he with he1 he2
          have hpair : (c1 == '.' && e == ' ') = false := by
            rw [he1]
            by_cases h1 : c1 = '.'
            · have h2 : c2 ≠ ' ' := fun hcc => hcond ⟨h1, hcc⟩
              simp [h2]
            · simp [h1]
          rw [show hasSep (c1 :: e :: r2) = ((c1 == '.' && e == ' ') || hasSep (e :: r2)) from rfl,
            hpair, hr]
          rfl
    · exact ih x (by rw [hin]; exact List.mem_cons_of_mem _ hx2)

theorem splitDotSpace_no_dot {l : List Char} (h : ('.' : Char) ∉ l) : splitDotSpace l = [l] := by
  induction l with
  | nil => rfl
  | cons c t ih =>
    cases t with
    | nil => rfl
    | cons d r =>
      have hc : c ≠ '.' := fun hc => h (by rw [hc]; exact List.mem_cons_self _ _)
      rw [splitDotSpace, if_neg (fun hp => hc (by rw [hp.1]))]
      rw [ih fun hd => h (List.mem_cons_of_mem _ hd)]

theorem splitDotSpace_append_sep {a : List Char} (b : List Char) (h : ('.' : Char) ∉ a) :
    splitDotSpace (a ++ '.' :: ' ' :: b) = a :: splitDotSpace b := by
  induction a with
  | nil =>
    rw [List.nil_append, splitDotSpace, if_pos ⟨rfl, rfl⟩]
  | cons c t ih =>
    cases t with
    | nil =>
      rw [List.cons_append, List.nil_append, splitDotSpace,
        if_neg (fun hp => by have := hp.2; simp at this)]
      rw [show splitDotSpace ('.' :: ' ' :: b) = [] :: splitDotSpace b from by
        rw [splitDotSpace, if_pos ⟨rfl, rfl⟩]]
    | cons d r =>
      have hc : c ≠ '.' := fun hc => h (by rw [hc]; exact List.mem_cons_self _ _)
      rw [List.cons_append, List.cons_append, splitDotSpace, if_neg (fun hp => hc (by rw [hp.1]))]
      have ih2 := ih fun hd => h (List.mem_cons_of_mem _ hd)
      rw [List.cons_append] at ih2
      rw [ih2]

theorem dropWhile_append_sep (s : List Char) :
    (s ++ '.' :: [' ']).dropWhile pyIsSpace = s.dropWhile pyIsSpace ++ '.' :: [' '] := by
  induction s with
  | nil => rfl
  | cons c t ih =>
    by_cases hp : pyIsSpace c = true
    · rw [List.cons_append, List.dropWhile_cons, if_pos hp, ih, List.dropWhile_cons, if_pos hp]
    · rw [List.cons_append, List.dropWhile_cons, if_neg hp, List.dropWhile_cons, if_neg hp,
        List.cons_append]

theorem pyStrip_append_sep (s : List Char) :
    pyStrip (s ++ '.' :: [' ']) = s.dropWhile pyIsSpace ++ ['.'] := by
  unfold pyStrip
  rw [dropWhile_append_sep]
  have h1 : (s.dropWhile pyIsSpace ++ '.' :: [' ']).reverse
      = ' ' :: '.' :: (s.dropWhile pyIsSpace).reverse := by
    simp
  rw [h1, List.dropWhile_cons, if_pos pyIsSpace_space, List.dropWhile_cons,
    if_neg (by rw [pyIsSpace_dot]; exact Bool.noConfusion)]
  simp

theorem hasSep_strip_sentence {s : List Char} (h : hasSep s = false) :
    hasSep (pyStrip (s ++ '.' :: [' '])) = false := by
  rw [pyStrip_append_sep]
  cases hh : hasSep (s.dropWhile pyIsSpace ++ ['.'])
  · rfl
  · rw [hasSep_dropWhile (hasSep_append_dot hh)] at h
    exact Bool.noConfusion h

/-! ## Word-split structure -/

theorem wordsAux_no_space : ∀ (s acc : List Char),
    (∀ c ∈ acc, pyIsSpace c = false) →
    ∀ w ∈ wordsAux s acc, ∀ c ∈ w, pyIsSpace c = false := by
  intro s
  induction s with
  | nil =>
    intro acc hacc w hw
    rw [wordsAux] at hw
    split at hw
    · simp at hw
    · simp at hw
      rw [hw]
      intro c hc
      exact hacc c (List.mem_reverse.mp hc)
  | cons d t ih =>
    intro acc hacc w hw
    rw [wordsAux] at hw
    split at hw
    · split at hw
      · exact ih [] (by simp) w hw
      · rcases List.mem_cons.mp hw with rfl | hw2
        · intro c hc
          exact hacc c (List.mem_reverse.mp hc)
        · exact ih [] (by simp) w hw2
    · rename_i hd
      rw [Bool.not_eq_true] at hd
      refine ih (d :: acc) ?_ w hw
      intro c hc
      rcases List.mem_cons.mp hc with rfl | hc2
      · exact hd
      · exact hacc c hc2

theorem pyWords_no_space (s : List Char) :
    ∀ w ∈ pyWords s, ∀ c ∈ w, pyIsSpace c = false :=
  wordsAux_no_space s [] (by simp)

theorem wordsAux_no_space_eq : ∀ (s acc : List Char),
    (∀ c ∈ s, pyIsSpace c = false) →
    wordsAux s acc = if acc.reverse ++ s = [] then [] else [acc.reverse ++ s] := by
  intro s
  induction s with
  | nil =>
    intro acc _
    rw [wordsAux]
    by_cases ha : acc = []
    · rw [if_pos ha, if_pos (by rw [ha]; rfl)]
    · rw [if_neg ha, if_neg (by simp [ha]), List.append_nil]
  | cons d t ih =>
    intro acc h
    rw [wordsAux, if_neg (by rw [h d (List.mem_cons_self _ _)]; exact Bool.noConfusion),
      ih (d :: acc) (fun c hc => h c (List.mem_cons_of_mem _ hc))]
    have he : (d :: acc).reverse ++ t = acc.reverse ++ d :: t := by
      simp
    rw [he]

/-! ## Chunker loop invariants -/

theorem chunkWords_spec (maxBytes : Nat) :
    ∀ (ws : List (List Char)) (temp cs : _) (t : List Char),
      chunkWords maxBytes ws temp = (cs, t) →
      (∀ w ∈ ws, ∀ c ∈ w, pyIsSpace c = false) →
      (utf8Len temp ≤ maxBytes ∨ ∀ c ∈ temp, pyIsSpace c = false) →
      (∀ ch ∈ cs, utf8Len ch ≤ maxBytes ∨ hasSep ch = false) ∧
      (utf8Len t ≤ maxBytes ∨ ∀ c ∈ t, pyIsSpace c = false) := by
  intro ws
  induction ws with
  | nil =>
    intro temp cs t heq _ ht
    rw [chunkWords] at heq
    injection heq with h1 h2
    rw [← h1, ← h2]
    exact ⟨by simp, ht⟩
  | cons w rest ih =>
    intro temp cs t heq hw ht
    have hwword : ∀ c ∈ w, pyIsSpace c = false := hw w (List.mem_cons_self _ _)
    have hwrest : ∀ x ∈ rest, ∀ c ∈ x, pyIsSpace c = false :=
      fun x hx => hw x (List.mem_cons_of_mem _ hx)
    rw [chunkWords] at heq
    split at heq
    · split at heq
      · exact ih w cs t heq hwrest (Or.inr hwword)
      · rcases hr : chunkWords maxBytes rest w with ⟨cs2, t2⟩
        rw [hr] at heq
        injection heq with h1 h2
        have hrec := ih w cs2 t2 hr hwrest (Or.inr hwword)
        rw [← h1, ← h2]
        constructor
        · intro ch hch
          rcases List.mem_cons.mp hch with rfl | hch2
          · rcases ht with hsmall | hns
            · exact Or.inl (Nat.le_trans (utf8Len_pyStrip_le temp) hsmall)
            · exact Or.inr (noSpace_pyStrip_hasSep hns)
          · exact hrec.1 ch hch2
        · exact hrec.2
    · rename_i hfit
      have hle : utf8Len (temp ++ ' ' :: w) ≤ maxBytes := Nat.le_of_not_lt hfit
      split at heq
      · refine ih w cs t heq hwrest (Or.inl ?_)
        have : utf8Len w ≤ utf8Len (temp ++ ' ' :: w) := by
          rw [utf8Len_append, utf8Len_cons]
          omega
        omega
      · exact ih (temp ++ ' ' :: w) cs t heq hwrest (Or.inl hle)

theorem chunkSentences_spec (maxBytes : Nat) (lastS : List Char) :
    ∀ (ss : List (List Char)) (current cs : _) (cur : List Char),
      chunkSentences maxBytes lastS ss current = (cs, cur) →
      (∀ s ∈ ss, hasSep s = false) →
      (utf8Len current ≤ maxBytes ∨ hasSep (pyStrip current) = false) →
      (∀ ch ∈ cs, utf8Len ch ≤ maxBytes ∨ hasSep ch = false) ∧
      (utf8Len cur ≤ maxBytes ∨ hasSep (pyStrip cur) = false) := by
  intro ss
  induction ss with
  | nil =>
    intro current cs cur heq _ hc
    rw [chunkSentences] at heq
    injection heq with h1 h2
    rw [← h1, ← h2]
    exact ⟨by simp, hc⟩
  | cons s rest ih =>
    intro current cs cur heq hs hc
    have hs0 : hasSep s = false := hs s (List.mem_cons_self _ _)
    have hsrest : ∀ x ∈ rest, hasSep x = false := fun x hx => hs x (List.mem_cons_of_mem _ hx)
    have hsent : hasSep (pyStrip (if s = lastS then s else s ++ ('.' :: [' ']))) = false := by
      split
      · exact hasSep_pyStrip_false hs0
      · exact hasSep_strip_sentence hs0
    simp only [chunkSentences] at heq
    set sent := (if s = lastS then s else s ++ ('.' :: [' '])) with hsentdef
    split at heq
    · split at heq
      · rcases hr1 : chunkWords maxBytes (pyWords sent) [] with ⟨cs1, t1⟩
        rw [hr1] at heq
        rcases hr2 : chunkSentences maxBytes lastS rest t1 with ⟨cs2, t2⟩
        rw [hr2] at heq
        injection heq with h1 h2
        have hrec1 := chunkWords_spec maxBytes _ [] cs1 t1 hr1 (pyWords_no_space _)
          (Or.inl (by rw [utf8Len_nil]; exact Nat.zero_le _))
        have ht1 : utf8Len t1 ≤ maxBytes ∨ hasSep (pyStrip t1) = false :=
          hrec1.2.imp id noSpace_pyStrip_hasSep
        have hrec2 := ih t1 cs2 t2 hr2 hsrest ht1
        rw [← h1, ← h2]
        refine ⟨?_, hrec2.2⟩
        intro ch hch
        rcases List.mem_append.mp hch with hch1 | hch2
        · exact hrec1.1 ch hch1
        · exact hrec2.1 ch hch2
      · rcases hr : chunkSentences maxBytes lastS rest sent with ⟨cs2, t2⟩
        rw [hr] at heq
        injection heq with h1 h2
        have hrec := ih _ cs2 t2 hr hsrest (Or.inr hsent)
        rw [← h1, ← h2]
        constructor
        · intro ch hch
          rcases List.mem_cons.mp hch with rfl | hch2
          · rcases hc with hsmall | hns
            · exact Or.inl (Nat.le_trans (utf8Len_pyStrip_le current) hsmall)
            · exact Or.inr hns
          · exact hrec.1 ch hch2
        · exact hrec.2
    · rename_i hfit
      exact ih _ cs cur heq hsrest (Or.inl (Nat.le_of_not_lt hfit))

example : chunk_text "a. bb cc".toList 4 = ["a.".toList, "bb cc".toList] := by decide

example : utf8Len "bb cc".toList = 5 := by decide

example : chunk_text "hi".toList 5 = ["hi".toList] := by decide

example : chunk_text "   ".toList 5 = [] := by decide

example : chunk_text "aaaa bbbb cccc".toList 5 = ["aaaa", "bbbb", "cccc"].map String.toList := by decide

example : process_large_text [false, true, true, true, true, true] = .combined [2, 3, 4, 5, 6] := by decide
example : convert_text_to_speech .nonStr (fun _ => .empty) = (.ok none, 1) := rfl

/-- Claim C1 (amended): for every input text and positive `maxBytes`, every
chunk returned by `_chunk_text` either has UTF-8 size at most `maxBytes` or
contains no sentence separator `'. '` at all — i.e. the only chunks that may
exceed the bound are a single indivisible word or a single sentence whose
encoded size alone exceeds `maxBytes`; no chunk spanning two or more
sentences ever exceeds the bound.  (The original claim allowed only single
words as the exception; oversized single sentences also occur, see the
counterexample.) -/
theorem chunk_text_byte_bound (text : List Char) (maxBytes : Nat) (hpos : 0 < maxBytes) :
    ∀ ch ∈ chunk_text text maxBytes, utf8Len ch ≤ maxBytes ∨ hasSep ch = false := by
  intro ch hch
  simp only [chunk_text] at hch
  split at hch
  · simp at hch
  · rcases hr : chunkSentences maxBytes ((splitDotSpace (pyReplaceNl text)).getLastD [])
        (splitDotSpace (pyReplaceNl text)) [] with ⟨cs, cur⟩
    rw [hr] at hch
    have hspec := chunkSentences_spec maxBytes _ _ [] cs cur hr
      (hasSep_splitDotSpace _) (Or.inl (by rw [utf8Len_nil]; exact Nat.zero_le _))
    split at hch
    · exact hspec.1 ch hch
    · rcases List.mem_append.mp hch with hch1 | hch2
      · exact hspec.1 ch hch1
      · have hcur : ch = pyStrip cur := by simpa using hch2
        rw [hcur]
        rcases hspec.2 with hsmall | hns
        · exact Or.inl (Nat.le_trans (utf8Len_pyStrip_le cur) hsmall)
        · exact Or.inr hns

/-- Witness for C1: the theorem applied at a concrete text, bound and chunk. -/
theorem chunk_text_byte_bound_witness :
    utf8Len ('h' :: 'i' :: []) ≤ 5 ∨ hasSep ('h' :: 'i' :: []) = false :=
  chunk_text_byte_bound ('h' :: 'i' :: []) 5 (by decide) ('h' :: 'i' :: []) (by decide)

/-- Counterexample to C1 as stated: with `maxBytes = 4`, the text
`"a. bb cc"` produces the chunk `"bb cc"`, which exceeds the bound (5 bytes)
yet is not a single word (it contains whitespace): the word-level fallback
only runs when the running buffer is empty, so an oversized multi-word
sentence is emitted whole. -/
theorem chunk_text_byte_bound_counterexample :
    chunk_text "a. bb cc".toList 4 = ["a.".toList, "bb cc".toList] ∧
    4 < utf8Len "bb cc".toList ∧
    ("bb cc".toList.all fun c => !pyIsSpace c) = false :=
  ⟨by decide, by decide, by decide⟩

/-! ## Orchestrator threshold lemmas -/

theorem count_true_add_count_false (l : List Bool) :
    l.count true + l.count false = l.length := by
  induction l with
  | nil => rfl
  | cons b t ih =>
    cases b <;> simp [List.count_cons] <;> omega

theorem orchLoop_threshold_shape (total : Nat) :
    ∀ (rest : List Bool) (idx : Nat) (files : List Nat) (failed f t : Nat),
      5 * failed ≤ total →
      orchLoop total rest idx files failed = .thresholdError f t →
      failed < f ∧ t = total ∧ total < 5 * f ∧ 5 * (f - 1) ≤ total := by
  intro rest
  induction rest with
  | nil =>
    intro idx files failed f t _ heq
    rw [orchLoop] at heq
    split at heq <;> exact OrchOutcome.noConfusion heq
  | cons ok rest ih =>
    intro idx files failed f t hle heq
    rw [orchLoop] at heq
    split at heq
    · exact ih _ _ _ _ _ hle heq
    · split at heq
      · rename_i hth
        have hth2 : total < 5 * (failed + 1) := by
          simpa [errorThresholdHit] using hth
        injection heq with h1 h2
        refine ⟨?_, ?_, ?_, ?_⟩ <;> omega
      · rename_i hth
        have hth2 : ¬ total < 5 * (failed + 1) := by
          simpa [errorThresholdHit] using hth
        have hrec := ih _ _ _ _ _ (by omega) heq
        exact ⟨by omega, hrec.2.1, hrec.2.2.1, hrec.2.2.2⟩

theorem orchLoop_threshold_iff (total : Nat) :
    ∀ (rest : List Bool) (idx : Nat) (files : List Nat) (failed : Nat),
      5 * failed ≤ total →
      ((∃ f t, orchLoop total rest idx files failed = .thresholdError f t) ↔
        total < 5 * (failed + rest.count false)) := by
  intro rest
  induction rest with
  | nil =>
    intro idx files failed hle
    constructor
    · rintro ⟨f, t, heq⟩
      rw [orchLoop] at heq
      split at heq <;> exact OrchOutcome.noConfusion heq
    · intro hlt
      rw [List.count_nil] at hlt
      omega
  | cons ok rest ih =>
    intro idx files failed hle
    cases ok
    · have hcnt : (false :: rest).count false = rest.count false + 1 := by
        simp [List.count_cons]
      rw [orchLoop, if_neg (by simp)]
      by_cases hth : total < 5 * (failed + 1)
      · rw [if_pos (by simpa [errorThresholdHit] using hth)]
        constructor
        · intro _
          rw [hcnt]
          omega
        · intro _
          exact ⟨failed + 1, total, rfl⟩
      · rw [if_neg (by simpa [errorThresholdHit] using hth)]
        rw [ih _ _ _ (by omega), hcnt]
        constructor <;> (intro hx; omega)
    · have hcnt : (true :: rest).count false = rest.count false := by
        simp [List.count_cons]
      rw [orchLoop, if_pos rfl, ih _ _ _ hle, hcnt]

theorem orchLoop_complete (total : Nat) :
    ∀ (rest : List Bool) (idx : Nat) (files : List Nat) (failed : Nat),
      5 * (failed + rest.count false) ≤ total →
      ∃ fs, orchLoop total rest idx files failed =
          (if fs = [] then OrchOutcome.noValidChunks else OrchOutcome.combined fs) ∧
        fs.length = files.length + rest.count true := by
  intro rest
  induction rest with
  | nil =>
    intro idx files failed _
    refine ⟨files, ?_, by simp⟩
    rw [orchLoop]
  | cons ok rest ih =>
    intro idx files failed hle
    cases ok
    · have hcnt : (false :: rest).count false = rest.count false + 1 := by
        simp [List.count_cons]
      rw [hcnt] at hle
      rw [orchLoop, if_neg (by simp),
        if_neg (by simp only [errorThresholdHit, decide_eq_true_eq]; omega)]
      obtain ⟨fs, h1, h2⟩ := ih (idx + 1) files (failed + 1) (by omega)
      refine ⟨fs, h1, ?_⟩
      rw [h2]
      simp [List.count_cons]
    · rw [orchLoop, if_pos rfl]
      have hle2 : 5 * (failed + rest.count false) ≤ total := by
        have : (true :: rest).count false = rest.count false := by simp [List.count_cons]
        omega
      obtain ⟨fs, h1, h2⟩ := ih (idx + 1) (files ++ [idx]) failed hle2
      refine ⟨fs, h1, ?_⟩
      rw [h2]
      simp [List.count_cons]
      omega

/-- Claim C2 (amended): after each chunk failure `process_large_text`
recomputes `failed / totalChunks` where `totalChunks = len(chunks)` is the
total chunk count of the whole run — not the number of chunks seen so far —
and aborts with the threshold error the moment that ratio exceeds 0.2
(equivalently `5 * failed > total`).  Consequently: the run aborts iff the
total number of failures `F` satisfies `total < 5 * F`; an abort reports
exactly the first failure count `f` with `total < 5 * f` (and the full
total); and a run whose first chunk fails aborts immediately at that point
iff the run has fewer than 5 chunks. -/
theorem threshold_abort_recompute :
    (∀ outcomes : List Bool,
      (∃ f t, process_large_text outcomes = .thresholdError f t) ↔
        outcomes.length < 5 * outcomes.count false) ∧
    (∀ (outcomes : List Bool) (f t : Nat),
      process_large_text outcomes = .thresholdError f t →
        t = outcomes.length ∧ t < 5 * f ∧ 5 * (f - 1) ≤ t) ∧
    (∀ rest : List Bool,
      process_large_text (false :: rest) = .thresholdError 1 (rest.length + 1) ↔
        rest.length + 1 < 5) := by
  refine ⟨?_, ?_, ?_⟩
  · intro outcomes
    have h := orchLoop_threshold_iff outcomes.length outcomes 1 [] 0 (by omega)
    rw [process_large_text, h]
    omega
  · intro outcomes f t heq
    rw [process_large_text] at heq
    obtain ⟨h1, h2, h3, h4⟩ :=
      orchLoop_threshold_shape outcomes.length outcomes 1 [] 0 f t (by omega) heq
    exact ⟨h2, by omega, by omega⟩
  · intro rest
    constructor
    · intro heq
      rw [process_large_text, show (false :: rest).length = rest.length + 1 from rfl,
        orchLoop, if_neg (by simp)] at heq
      by_cases hth : rest.length + 1 < 5 * 1
      · omega
      · rw [if_neg (by simpa [errorThresholdHit] using hth)] at heq
        have hshape := orchLoop_threshold_shape (rest.length + 1) rest 2 [] 1 1 (rest.length + 1)
          (by omega) heq
        exact absurd hshape.1 (by omega)
    · intro hlt
      rw [process_large_text, show (false :: rest).length = rest.length + 1 from rfl,
        orchLoop, if_neg (by simp),
        if_pos (by simp only [errorThresholdHit, decide_eq_true_eq]; omega)]

/-- Witness for C2: the abort-shape component applied at the one-chunk run
whose single chunk fails. -/
theorem threshold_abort_recompute_witness :
    1 = ([false] : List Bool).length ∧ 1 < 5 * 1 ∧ 5 * (1 - 1) ≤ 1 :=
  threshold_abort_recompute.2.1 [false] 1 1 (by decide)

/-- Counterexample to C2 as stated: in a 6-chunk run whose very first chunk
fails (with more chunks remaining), the code does not abort — the denominator
is the total chunk count, so 1/6 ≤ 0.2 — and the run proceeds to combining
the other five chunks. -/
theorem threshold_abort_recompute_counterexample :
    process_large_text [false, true, true, true, true, true] =
        OrchOutcome.combined [2, 3, 4, 5, 6] ∧
    isThresholdError (process_large_text [false, true, true, true, true, true]) = false :=
  ⟨by decide, by decide⟩

/-- Claim C4: with the 0.2 threshold and a run of exactly 10 chunks, a run
with exactly 2 failed chunks never aborts and reaches combining with a
non-empty file list, while any run with 3 failed chunks aborts with the
threshold error, reported at the third failure (`failed = 3, total = 10`). -/
theorem threshold_boundary_ten_chunks :
    (∀ outcomes : List Bool, outcomes.length = 10 → outcomes.count false = 2 →
      ∃ fs, fs ≠ [] ∧ process_large_text outcomes = .combined fs) ∧
    (∀ outcomes : List Bool, outcomes.length = 10 → outcomes.count false = 3 →
      process_large_text outcomes = .thresholdError 3 10) := by
  constructor
  · intro outcomes hlen hcnt
    obtain ⟨fs, h1, h2⟩ := orchLoop_complete outcomes.length outcomes 1 [] 0
      (by rw [hcnt, hlen]; try omega)
    have hcc := count_true_add_count_false outcomes
    have htrue : outcomes.count true = 8 := by omega
    rw [htrue] at h2
    have hne : fs ≠ [] := by
      intro hfs
      rw [hfs] at h2
      simp at h2
    rw [if_neg hne] at h1
    exact ⟨fs, hne, h1⟩
  · intro outcomes hlen hcnt
    have hiff := orchLoop_threshold_iff outcomes.length outcomes 1 [] 0 (by omega)
    obtain ⟨f, t, heq⟩ := hiff.mpr (by rw [hcnt, hlen]; try omega)
    obtain ⟨h1, h2, h3, h4⟩ :=
      orchLoop_threshold_shape outcomes.length outcomes 1 [] 0 f t (by omega) heq
    have hf : f = 3 := by omega
    have ht : t = 10 := by omega
    rw [process_large_text]
    rw [hf, ht] at heq
    exact heq

/-- Witness for C4: both components applied at concrete 10-chunk runs. -/
theorem threshold_boundary_ten_chunks_witness :
    (∃ fs, fs ≠ [] ∧
      process_large_text
        [false, false, true, true, true, true, true, true, true, true] =
          OrchOutcome.combined fs) ∧
    process_large_text
        [false, false, false, true, true, true, true, true, true, true] =
      OrchOutcome.thresholdError 3 10 :=
  ⟨threshold_boundary_ten_chunks.1 _ (by decide) (by decide),
    threshold_boundary_ten_chunks.2 _ (by decide) (by decide)⟩

/-- Claim C9: for empty or whitespace-only input the chunker returns the
empty chunk sequence (without raising), and the orchestrator run on that
input ends with the no-valid-chunks failure rather than crashing: the
failure-ratio test sits inside the per-chunk loop, which never executes, so
no division by the chunk count occurs. -/
theorem zero_chunk_input_no_valid (text : List Char) (maxBytes : Nat) (chunkOk : Nat → Bool)
    (h : ∀ c ∈ text, pyIsSpace c = true) :
    chunk_text text maxBytes = [] ∧ process_large_text_of text chunkOk = .noValidChunks := by
  have hdrop : text.dropWhile pyIsSpace = [] := by
    induction text with
    | nil => rfl
    | cons c t ih =>
      rw [List.dropWhile_cons, if_pos (h c (List.mem_cons_self _ _))]
      exact ih fun d hd => h d (List.mem_cons_of_mem _ hd)
  have hstrip : pyStrip text = [] := by
    unfold pyStrip
    rw [hdrop]
    rfl
  have hct : ∀ mb : Nat, chunk_text text mb = [] := by
    intro mb
    simp only [chunk_text]
    rw [if_pos hstrip]
  refine ⟨hct maxBytes, ?_⟩
  simp only [process_large_text_of]
  rw [hct 5000]
  rfl

/-- Witness for C9 at a whitespace-only input. -/
theorem zero_chunk_input_no_valid_witness :
    chunk_text [' '] 7 = [] ∧
      process_large_text_of [' '] (fun _ => true) = OrchOutcome.noValidChunks :=
  zero_chunk_input_no_valid [' '] 7 (fun _ => true) (by decide)

/-! ## Cleanup and combining -/

theorem cleanup_removes_job (job : Nat) (store : List (Nat × Nat)) :
    (cleanup_temp_files job store).filter (fun b => b.1 == job) = [] := by
  induction store with
  | nil => rfl
  | cons b t ih =>
    by_cases hb : b.1 = job
    · simp only [cleanup_temp_files, List.filter_cons] at ih ⊢
      rw [if_neg (by simp [hb])]
      exact ih
    · simp only [cleanup_temp_files, List.filter_cons] at ih ⊢
      rw [if_pos (by simp [hb]), List.filter_cons, if_neg (by simp [hb])]
      exact ih

/-- Claim C6: on every exit path of the orchestration — successful combine,
threshold abort, no-valid-chunks failure, or a combining failure raised
mid-pipeline — the `finally` cleanup of the job's temporary namespace runs
before control returns, so no blob stored under the job's namespace remains
in the store. -/
theorem cleanup_guarantee (job : Nat) (outcomes : List Bool) (combineOk : Bool)
    (store : List (Nat × Nat)) :
    ((process_large_text_st job outcomes combineOk store).2.filter
      (fun b => b.1 == job)) = [] := by
  simp only [process_large_text_st]
  rcases orchLoopSt job outcomes.length outcomes 1 [] 0 store with ⟨res, store1⟩
  cases res with
  | combined files => exact cleanup_removes_job job _
  | thresholdError f t => exact cleanup_removes_job job _
  | noValidChunks => exact cleanup_removes_job job _

theorem combineLoop_all_some (p : Nat × Nat × Nat) :
    ∀ (rest : List WavFile) (i : Nat) (w : WaveWriter),
      w.params = some p → i ≠ 0 →
      combineLoop (rest.map some) i w =
        .ok ⟨some p, w.frames ++ (rest.map WavFile.frames).flatten⟩ := by
  intro rest
  induction rest with
  | nil =>
    intro i w hp _
    cases w with
    | mk wp wf =>
      simp only at hp
      rw [hp, List.map_nil, combineLoop]
      simp
  | cons g rest ih =>
    intro i w hp hi
    rw [List.map_cons, combineLoop]
    rw [if_neg hi]
    rw [hp]
    rw [ih (i + 1) _ (by simp [hp]) (by omega)]
    simp

/-- Claim C7: for every non-empty list of present chunk audio files, the
combiner takes the channel count, sample width and frame rate of the first
file as the format of the whole combined stream, and appends the raw frames
of every file in exactly the input order; the format fields of the later
files are never consulted. -/
theorem combine_first_chunk_params_order (f : WavFile) (rest : List WavFile) :
    _combine_audio_files ((f :: rest).map some) =
      some ⟨f.nchannels, f.sampwidth, f.framerate,
        ((f :: rest).map WavFile.frames).flatten⟩ := by
  rw [List.map_cons]
  simp only [_combine_audio_files]
  rw [show combineLoop (some f :: rest.map some) 0 ⟨none, []⟩
      = combineLoop (rest.map some) 1
          ⟨some (f.nchannels, f.sampwidth, f.framerate), [] ++ f.frames⟩ from rfl]
  rw [combineLoop_all_some (f.nchannels, f.sampwidth, f.framerate) rest 1 _ rfl (by omega)]
  simp

/-- Claim C8: the audio validator accepts a segment exactly when all four
rules hold — duration at least 0.1 s, frame rate within 16000..48000 Hz,
mono or stereo, and peak level at most 0 dBFS — and any violation yields
`false` (the embedded validator is a total boolean function; the source
additionally catches any exception and returns `False`). -/
theorem validate_audio_segment_iff (s : AudioSegmentProps) :
    _validate_audio_segment s = true ↔
      (1 / 10 ≤ s.duration_seconds ∧
        16000 ≤ s.frame_rate ∧ s.frame_rate ≤ 48000 ∧
        (s.channels = 1 ∨ s.channels = 2) ∧
        s.max_dBFS ≤ 0) := by
  unfold _validate_audio_segment
  split_ifs with h1 h2 h3 h4
  · exact iff_of_false (fun hc => hc) (fun hc => absurd h1 (not_lt.mpr hc.1))
  · exact iff_of_false (fun hc => hc) (fun hc => absurd h4 (not_lt.mpr hc.2.2.2.2))
  · exact iff_of_true rfl ⟨not_lt.mp h1, h2.1, h2.2, h3, not_lt.mp h4⟩
  · exact iff_of_false (fun hc => hc) (fun hc => h3 hc.2.2.2.1)
  · exact iff_of_false (fun hc => hc) (fun hc => h2 ⟨hc.2.1, hc.2.2.1⟩)

/-! ## Retry semantics -/

theorem convert_attempt_str_small {s : List Char} (synth : Nat → SynthOutcome)
    (hns : ¬ 5000 < utf8Len s) (n : Nat) :
    convert_attempt (.str s) synth n =
      (match synth n with
        | .fail e => .error e
        | .empty => .ok none
        | .audioData content valid => if valid then .ok (some content) else .ok none) := by
  have hdef : convert_attempt (.str s) synth n =
      if 5000 < utf8Len s then .error .valueError
      else
        (match synth n with
          | .fail e => .error e
          | .empty => .ok none
          | .audioData content valid => if valid then .ok (some content) else .ok none) := rfl
  rw [hdef, if_neg hns]

theorem tenacityRun_ok {body : Nat → Except TtsError (Option (List Nat))} {a : Option (List Nat)}
    (fuel attempt : Nat) (h : body attempt = .ok a) :
    tenacityRun body fuel attempt = (.ok a, attempt) := by
  rw [tenacityRun, h]

theorem tenacityRun_error_stop {body : Nat → Except TtsError (Option (List Nat))} {e : TtsError}
    (attempt : Nat) (h : body attempt = .error e) :
    tenacityRun body 0 attempt = (.error e, attempt) := by
  rw [tenacityRun, h]

theorem tenacityRun_error_retry {body : Nat → Except TtsError (Option (List Nat))} {e : TtsError}
    (fuel attempt : Nat) (h : body attempt = .error e) (hr : isRetryableError e = true) :
    tenacityRun body (fuel + 1) attempt = tenacityRun body fuel (attempt + 1) := by
  rw [tenacityRun, h]
  simp [hr]

theorem tenacityRun_error_noretry {body : Nat → Except TtsError (Option (List Nat))} {e : TtsError}
    (fuel attempt : Nat) (h : body attempt = .error e) (hr : isRetryableError e = false) :
    tenacityRun body (fuel + 1) attempt = (.error e, attempt) := by
  rw [tenacityRun, h]
  simp [hr]

/-- Claim C5: under the `tenacity` decorator a call failing with transient
errors on attempts 1 and 2 and succeeding on attempt 3 returns the third
attempt's result after exactly 3 attempts; a call failing on all 3 attempts
re-raises the third attempt's exception unmodified; a non-transient failure
(such as the over-5000-byte `ValueError`) is raised after a single attempt,
never retried; and the back-off delay before the retry following attempt
`n + 1` is the exponential `2 * 2 ^ n` clamped into the configured `[4, 10]`
second window (so it doubles per attempt up to the cap). -/
theorem retry_ceiling :
    (∀ (s : List Char) (synth : Nat → SynthOutcome) (e1 e2 : TtsError) (bytes : List Nat),
      utf8Len s ≤ 5000 →
      isRetryableError e1 = true → isRetryableError e2 = true →
      synth 1 = .fail e1 → synth 2 = .fail e2 → synth 3 = .audioData bytes true →
      convert_text_to_speech (.str s) synth = (.ok (some bytes), 3)) ∧
    (∀ (s : List Char) (synth : Nat → SynthOutcome) (e1 e2 e3 : TtsError),
      utf8Len s ≤ 5000 →
      isRetryableError e1 = true → isRetryableError e2 = true →
      synth 1 = .fail e1 → synth 2 = .fail e2 → synth 3 = .fail e3 →
      convert_text_to_speech (.str s) synth = (.error e3, 3)) ∧
    (∀ (s : List Char) (synth : Nat → SynthOutcome) (e : TtsError),
      utf8Len s ≤ 5000 → isRetryableError e = false → synth 1 = .fail e →
      convert_text_to_speech (.str s) synth = (.error e, 1)) ∧
    (∀ n : Nat, wait_exponential 1 4 10 (n + 1) = max 4 (min (2 * 2 ^ n) 10)) := by
  refine ⟨?_, ?_, ?_, ?_⟩
  · intro s synth e1 e2 bytes hsmall hr1 hr2 h1 h2 h3
    have hns : ¬ 5000 < utf8Len s := Nat.not_lt.mpr hsmall
    have hb1 : convert_attempt (.str s) synth 1 = .error e1 := by
      rw [convert_attempt_str_small synth hns, h1]
    have hb2 : convert_attempt (.str s) synth 2 = .error e2 := by
      rw [convert_attempt_str_small synth hns, h2]
    have hb3 : convert_attempt (.str s) synth 3 = .ok (some bytes) := by
      rw [convert_attempt_str_small synth hns, h3]
      rfl
    calc convert_text_to_speech (.str s) synth
        = tenacityRun (convert_attempt (.str s) synth) 2 1 := rfl
      _ = tenacityRun (convert_attempt (.str s) synth) 1 2 :=
          tenacityRun_error_retry 1 1 hb1 hr1
      _ = tenacityRun (convert_attempt (.str s) synth) 0 3 :=
          tenacityRun_error_retry 0 2 hb2 hr2
      _ = (.ok (some bytes), 3) := tenacityRun_ok 0 3 hb3
  · intro s synth e1 e2 e3 hsmall hr1 hr2 h1 h2 h3
    have hns : ¬ 5000 < utf8Len s := Nat.not_lt.mpr hsmall
    have hb1 : convert_attempt (.str s) synth 1 = .error e1 := by
      rw [convert_attempt_str_small synth hns, h1]
    have hb2 : convert_attempt (.str s) synth 2 = .error e2 := by
      rw [convert_attempt_str_small synth hns, h2]
    have hb3 : convert_attempt (.str s) synth 3 = .error e3 := by
      rw [convert_attempt_str_small synth hns, h3]
    calc convert_text_to_speech (.str s) synth
        = tenacityRun (convert_attempt (.str s) synth) 2 1 := rfl
      _ = tenacityRun (convert_attempt (.str s) synth) 1 2 :=
          tenacityRun_error_retry 1 1 hb1 hr1
      _ = tenacityRun (convert_attempt (.str s) synth) 0 3 :=
          tenacityRun_error_retry 0 2 hb2 hr2
      _ = (.error e3, 3) := tenacityRun_error_stop 3 hb3
  · intro s synth e hsmall hr h1
    have hns : ¬ 5000 < utf8Len s := Nat.not_lt.mpr hsmall
    have hb1 : convert_attempt (.str s) synth 1 = .error e := by
      rw [convert_attempt_str_small synth hns, h1]
    exact tenacityRun_error_noretry 1 1 hb1 hr
  · intro n
    simp [wait_exponential, Nat.pow_succ, Nat.mul_comm]

/-- Witness for C5: two transient failures then success, at a concrete
synthesis trace. -/
theorem retry_ceiling_witness :
    convert_text_to_speech (PyInput.str ['h'])
        (fun n => if n = 1 then SynthOutcome.fail TtsError.deadlineExceeded
          else if n = 2 then SynthOutcome.fail TtsError.serviceUnavailable
          else SynthOutcome.audioData [7] true) = (.ok (some [7]), 3) :=
  retry_ceiling.1 ['h'] _ TtsError.deadlineExceeded TtsError.serviceUnavailable [7]
    (by decide) rfl rfl rfl rfl rfl

/-- Claim C10: non-string input makes `convert_text_to_speech` return `None`
after a single attempt, without raising and without consulting the synthesis
service (the result is the same for every possible service behaviour) —
a silent failure distinct from the `ValueError` raised for an oversized
string. -/
theorem non_string_silent_none :
    (∀ synth : Nat → SynthOutcome,
      convert_text_to_speech PyInput.nonStr synth = (.ok none, 1)) ∧
    (∀ (s : List Char) (synth : Nat → SynthOutcome), 5000 < utf8Len s →
      convert_text_to_speech (PyInput.str s) synth = (.error .valueError, 1)) := by
  constructor
  · intro synth
    rfl
  · intro s synth h
    have hb : convert_attempt (.str s) synth 1 = .error .valueError := by
      have hdef : convert_attempt (.str s) synth 1 =
          if 5000 < utf8Len s then .error .valueError
          else
            (match synth 1 with
              | .fail e => .error e
              | .empty => .ok none
              | .audioData content valid => if valid then .ok (some content) else .ok none) := rfl
      rw [hdef, if_pos h]
    exact tenacityRun_error_noretry 1 1 hb rfl

/-- Witness for C10: a non-string input and a 5001-byte string input. -/
theorem non_string_silent_none_witness :
    convert_text_to_speech PyInput.nonStr (fun _ => SynthOutcome.empty) = (.ok none, 1) ∧
    convert_text_to_speech (PyInput.str (List.replicate 5001 'a'))
        (fun _ => SynthOutcome.empty) = (.error .valueError, 1) :=
  ⟨non_string_silent_none.1 _,
    non_string_silent_none.2 _ _ (by rw [utf8Len_replicate]; decide)⟩

/-! ## Symbolic execution of the chunker on concrete articles -/

theorem pyStrip_no_space {l : List Char} (h : ∀ c ∈ l, pyIsSpace c = false) :
    pyStrip l = l := by
  have hd : ∀ (m : List Char), (∀ c ∈ m, pyIsSpace c = false) → m.dropWhile pyIsSpace = m := by
    intro m hm
    cases m with
    | nil => rfl
    | cons c t =>
      rw [List.dropWhile_cons,
        if_neg (by rw [hm c (List.mem_cons_self _ _)]; exact Bool.noConfusion)]
  unfold pyStrip
  rw [hd l h, hd l.reverse (fun c hc => h c (List.mem_reverse.mp hc)), List.reverse_reverse]

theorem all_space_of_pyStrip_nil {l : List Char} (h : pyStrip l = []) :
    ∀ c ∈ l, pyIsSpace c = true := by
  unfold pyStrip at h
  rw [List.reverse_eq_nil_iff, List.dropWhile_eq_nil_iff] at h
  have hu : ∀ c ∈ l.dropWhile pyIsSpace, pyIsSpace c = true := by
    intro c hc
    exact h c (List.mem_reverse.mpr hc)
  intro c hc
  rw [← List.takeWhile_append_dropWhile pyIsSpace l] at hc
  rcases List.mem_append.mp hc with h1 | h2
  · exact List.mem_takeWhile_imp h1
  · exact hu c h2

theorem pyReplaceNl_id {l : List Char} (h : ∀ c ∈ l, ¬ c = '\n') : pyReplaceNl l = l := by
  unfold pyReplaceNl
  induction l with
  | nil => rfl
  | cons c t ih =>
    rw [List.map_cons, ih fun d hd => h d (List.mem_cons_of_mem _ hd)]
    have hc : (if c = '\n' then ' ' else c) = c := if_neg (h c (List.mem_cons_self _ _))
    rw [hc]

theorem chunkSentences_nil (maxBytes : Nat) (lastS current : List Char) :
    chunkSentences maxBytes lastS [] current = ([], current) := by
  rw [chunkSentences]

theorem chunkSentences_cons_fit (maxBytes : Nat) (lastS s : List Char) (ss : List (List Char))
    (current sent : List Char)
    (hsent : (if s = lastS then s else s ++ ('.' :: [' '])) = sent)
    (hfit : ¬ maxBytes < utf8Len (current ++ sent)) :
    chunkSentences maxBytes lastS (s :: ss) current =
      chunkSentences maxBytes lastS ss (current ++ sent) := by
  simp only [chunkSentences]
  rw [hsent, if_neg hfit]

theorem chunkSentences_cons_over (maxBytes : Nat) (lastS s : List Char) (ss : List (List Char))
    (current sent : List Char)
    (hsent : (if s = lastS then s else s ++ ('.' :: [' '])) = sent)
    (hover : maxBytes < utf8Len (current ++ sent))
    (hcur : current ≠ []) :
    chunkSentences maxBytes lastS (s :: ss) current =
      (pyStrip current :: (chunkSentences maxBytes lastS ss sent).1,
        (chunkSentences maxBytes lastS ss sent).2) := by
  simp only [chunkSentences]
  rw [hsent, if_pos hover, if_neg hcur]

theorem chunkSentences_cons_word (maxBytes : Nat) (lastS s : List Char) (ss : List (List Char))
    (sent : List Char)
    (hsent : (if s = lastS then s else s ++ ('.' :: [' '])) = sent)
    (hover : maxBytes < utf8Len (([] : List Char) ++ sent)) :
    chunkSentences maxBytes lastS (s :: ss) [] =
      ((chunkWords maxBytes (pyWords sent) []).1 ++
          (chunkSentences maxBytes lastS ss (chunkWords maxBytes (pyWords sent) []).2).1,
        (chunkSentences maxBytes lastS ss (chunkWords maxBytes (pyWords sent) []).2).2) := by
  simp only [chunkSentences]
  rw [hsent, if_pos hover, if_pos trivial]

theorem megaWord_mem {c : Char} (hc : c ∈ megaWordArticle) : c = '𠀀' := by
  unfold megaWordArticle at hc
  exact List.eq_of_mem_replicate hc

theorem megaWord_no_space : ∀ c ∈ megaWordArticle, pyIsSpace c = false := by
  intro c hc
  rw [megaWord_mem hc]
  rfl

theorem megaWord_ne_nil : megaWordArticle ≠ [] := by
  intro h
  have h2 := congrArg List.length h
  rw [show megaWordArticle = List.replicate 3000 '𠀀' from rfl, List.length_replicate] at h2
  exact absurd h2 (by decide)

theorem megaWord_utf8Len : utf8Len megaWordArticle = 12000 := by
  unfold megaWordArticle
  rw [utf8Len_replicate]
  rfl

theorem chunk_text_megaWord : chunk_text megaWordArticle 5000 = [megaWordArticle] := by
  have hstrip : pyStrip megaWordArticle = megaWordArticle := pyStrip_no_space megaWord_no_space
  have hrepl : pyReplaceNl megaWordArticle = megaWordArticle :=
    pyReplaceNl_id fun c hc => by rw [megaWord_mem hc]; decide
  have hsplit : splitDotSpace megaWordArticle = [megaWordArticle] :=
    splitDotSpace_no_dot fun hd => by have h := megaWord_mem hd; exact absurd h (by decide)
  have hwords : pyWords megaWordArticle = [megaWordArticle] := by
    unfold pyWords
    rw [wordsAux_no_space_eq megaWordArticle [] megaWord_no_space]
    rw [List.reverse_nil, List.nil_append, if_neg megaWord_ne_nil]
  have hcw : chunkWords 5000 [megaWordArticle] [] = ([], megaWordArticle) := by
    rw [chunkWords,
      if_pos (by rw [List.nil_append, utf8Len_cons, megaWord_utf8Len]; decide),
      if_pos rfl, chunkWords]
  simp only [chunk_text]
  rw [if_neg (by rw [hstrip]; exact megaWord_ne_nil), hrepl, hsplit]
  rw [show ([megaWordArticle].getLastD [] : List Char) = megaWordArticle from rfl]
  rw [chunkSentences_cons_word 5000 megaWordArticle megaWordArticle [] megaWordArticle
    (if_pos rfl) (by rw [List.nil_append, megaWord_utf8Len]; decide)]
  rw [hwords, hcw]
  rw [show (([], megaWordArticle) : List (List Char) × List Char).2 = megaWordArticle from rfl,
    show (([], megaWordArticle) : List (List Char) × List Char).1 = [] from rfl]
  rw [chunkSentences_nil]
  rw [if_neg (by exact megaWord_ne_nil), hstrip]
  rfl

set_option maxRecDepth 40000 in
theorem sampleLong_utf8Len : utf8Len sampleLongArticle = 12000 := by
  unfold sampleLongArticle
  rw [utf8Len_append, utf8Len_cons, utf8Len_cons, utf8Len_append, utf8Len_cons, utf8Len_cons,
    utf8Len_replicate]
  decide

set_option maxRecDepth 40000 in
theorem sampleLong_chunks :
    chunk_text sampleLongArticle 5000 =
      [pyStrip (List.replicate 1000 '𠀀' ++ ('.' :: [' '])),
        pyStrip (List.replicate 1000 '𠀀' ++ ('.' :: [' '])),
        pyStrip (List.replicate 999 '𠀀')] := by
  have hW4 : utf8Len (List.replicate 1000 '𠀀') = 4000 := by rw [utf8Len_replicate]; rfl
  have hV4 : utf8Len (List.replicate 999 '𠀀') = 3996 := by rw [utf8Len_replicate]; rfl
  have hsep2 : utf8Len ('.' :: [' ']) = 2 := rfl
  have hWs : utf8Len (List.replicate 1000 '𠀀' ++ ('.' :: [' '])) = 4002 := by
    rw [utf8Len_append, hW4, hsep2]
  have hWV : List.replicate 1000 '𠀀' ≠ List.replicate 999 '𠀀' := by
    intro h
    have h2 := congrArg List.length h
    rw [List.length_replicate] at h2
    exact absurd h2 (by decide)
  have hWsnn : List.replicate 1000 '𠀀' ++ ('.' :: [' ']) ≠ [] := by
    intro h
    have h2 := congrArg List.length h
    rw [List.length_append, List.length_replicate] at h2
    exact absurd h2 (by decide)
  have hVnn : List.replicate 999 '𠀀' ≠ [] := by
    intro h
    have h2 := congrArg List.length h
    rw [List.length_replicate] at h2
    exact absurd h2 (by decide)
  have hdotW : ('.' : Char) ∉ List.replicate 1000 '𠀀' := by
    intro hd
    have h2 := List.eq_of_mem_replicate hd
    exact absurd h2 (by decide)
  have hdotV : ('.' : Char) ∉ List.replicate 999 '𠀀' := by
    intro hd
    have h2 := List.eq_of_mem_replicate hd
    exact absurd h2 (by decide)
  have hmemW : '𠀀' ∈ sampleLongArticle := by
    unfold sampleLongArticle
    exact List.mem_append_left _ (List.mem_replicate.mpr ⟨by decide, rfl⟩)
  have hstripnn : pyStrip sampleLongArticle ≠ [] := by
    intro h
    have h2 := all_space_of_pyStrip_nil h '𠀀' hmemW
    exact absurd h2 (by decide)
  have hrepl : pyReplaceNl sampleLongArticle = sampleLongArticle := by
    refine pyReplaceNl_id ?_
    intro c hc
    unfold sampleLongArticle at hc
    simp only [List.mem_append, List.mem_cons, List.mem_replicate] at hc
    rcases hc with ⟨-, rfl⟩ | rfl | rfl | ⟨-, rfl⟩ | rfl | rfl | ⟨-, rfl⟩ <;> decide
  have hsplit : splitDotSpace sampleLongArticle =
      [List.replicate 1000 '𠀀', List.replicate 1000 '𠀀', List.replicate 999 '𠀀'] := by
    unfold sampleLongArticle
    rw [splitDotSpace_append_sep _ hdotW, splitDotSpace_append_sep _ hdotW,
      splitDotSpace_no_dot hdotV]
  have hcs : chunkSentences 5000 (List.replicate 999 '𠀀')
      [List.replicate 1000 '𠀀', List.replicate 1000 '𠀀', List.replicate 999 '𠀀'] [] =
      ([pyStrip (List.replicate 1000 '𠀀' ++ ('.' :: [' '])),
        pyStrip (List.replicate 1000 '𠀀' ++ ('.' :: [' ']))], List.replicate 999 '𠀀') := by
    rw [chunkSentences_cons_fit 5000 (List.replicate 999 '𠀀') (List.replicate 1000 '𠀀')
      [List.replicate 1000 '𠀀', List.replicate 999 '𠀀'] []
      (List.replicate 1000 '𠀀' ++ ('.' :: [' '])) (if_neg hWV)
      (by rw [List.nil_append, hWs]; decide)]
    rw [List.nil_append]
    rw [chunkSentences_cons_over 5000 (List.replicate 999 '𠀀') (List.replicate 1000 '𠀀')
      [List.replicate 999 '𠀀'] (List.replicate 1000 '𠀀' ++ ('.' :: [' ']))
      (List.replicate 1000 '𠀀' ++ ('.' :: [' '])) (if_neg hWV)
      (by rw [utf8Len_append, hWs]; decide) hWsnn]
    rw [chunkSentences_cons_over 5000 (List.replicate 999 '𠀀') (List.replicate 999 '𠀀')
      [] (List.replicate 1000 '𠀀' ++ ('.' :: [' '])) (List.replicate 999 '𠀀')
      (if_pos rfl)
      (by rw [utf8Len_append, hWs, hV4]; decide) hWsnn]
    rw [chunkSentences_nil]
  simp only [chunk_text]
  rw [if_neg hstripnn, hrepl, hsplit]
  rw [show (([List.replicate 1000 '𠀀', List.replicate 1000 '𠀀',
      List.replicate 999 '𠀀'].getLastD [] : List Char)) = List.replicate 999 '𠀀' from rfl]
  rw [hcs]
  rw [if_neg (show ¬(([pyStrip (List.replicate 1000 '𠀀' ++ ('.' :: [' '])),
      pyStrip (List.replicate 1000 '𠀀' ++ ('.' :: [' ']))],
      List.replicate 999 '𠀀') : List (List Char) × List Char).2 = [] from hVnn)]
  rfl

set_option maxRecDepth 40000 in
/-- Claim C3 (amended): the entry point routes every article of UTF-8 size
at most 5000 bytes through the single direct synthesis call and every larger
article through `process_large_text`; a sentence-structured 12000-byte
article (three 4000-byte sentences) chunked at the default 5000-byte bound
produces at least 3 chunks — but this chunk count is not guaranteed for
every 12000-byte article: a degenerate article consisting of one single
12000-byte word yields a single over-limit chunk (see counterexample). -/
theorem single_vs_multi_path :
    (∀ content : List Char, utf8Len content ≤ 5000 →
      tts_route content = ConversionPath.singleChunk) ∧
    (∀ content : List Char, 5000 < utf8Len content →
      tts_route content = ConversionPath.multiChunk) ∧
    utf8Len sampleLongArticle = 12000 ∧
    tts_route sampleLongArticle = ConversionPath.multiChunk ∧
    3 ≤ (chunk_text sampleLongArticle 5000).length := by
  refine ⟨?_, ?_, sampleLong_utf8Len, ?_, ?_⟩
  · intro content h
    unfold tts_route
    rw [if_pos h]
  · intro content h
    unfold tts_route
    rw [if_neg (Nat.not_le.mpr h)]
  · unfold tts_route
    rw [if_neg (by rw [sampleLong_utf8Len]; decide)]
  · rw [sampleLong_chunks,
      show ([pyStrip (List.replicate 1000 '𠀀' ++ ('.' :: [' '])),
        pyStrip (List.replicate 1000 '𠀀' ++ ('.' :: [' '])),
        pyStrip (List.replicate 999 '𠀀')].length) = 3 from rfl]

/-- Witness for C3: the routing components applied at concrete small and
large inputs. -/
theorem single_vs_multi_path_witness :
    tts_route ['h'] = ConversionPath.singleChunk ∧
    tts_route (List.replicate 5001 'a') = ConversionPath.multiChunk :=
  ⟨single_vs_multi_path.1 ['h'] (by decide),
    single_vs_multi_path.2.1 (List.replicate 5001 'a') (by rw [utf8Len_replicate]; decide)⟩

/-- Counterexample to C3 as stated: a 12000-byte article consisting of a
single 3000-character word is routed to the multi-chunk path but produces
exactly one chunk (the whole word, accepted over-limit), not at least 3. -/
theorem single_vs_multi_path_counterexample :
    utf8Len megaWordArticle = 12000 ∧
    tts_route megaWordArticle = ConversionPath.multiChunk ∧
    (chunk_text megaWordArticle 5000).length = 1 ∧
    ¬ 3 ≤ (chunk_text megaWordArticle 5000).length := by
  refine ⟨megaWord_utf8Len, ?_, ?_, ?_⟩
  · unfold tts_route
    rw [if_neg (by rw [megaWord_utf8Len]; decide)]
  · rw [chunk_text_megaWord]
    rfl
  · rw [chunk_text_megaWord]
    decide
